import Mathlib

/-!
Verification of the OpenClaw pluggable key-value state store
(`datastore.ts`, `datastore-fs.ts`, `datastore-pg.ts`, `migrate-datastore.ts`).

Shallow embedding conventions:
* JS strings (paths, storage keys) are `List Char`.
* JSON documents are an abstract type `V`; the JS value `null` / an absent
  row is `Option.none`.
* The module-level write-through cache of the PG backend is a map from keys
  to *objects*; JS object identity (`===`, created fresh by every
  `structuredClone`) is modelled by a numeric allocation tag.
* Fallible code returns `Except`.
-/

namespace OpenClaw

/-- A path / storage key: the list of characters of the JS string. -/
abbrev Path : Type := List Char

/-- Pointwise-update helper for the kv maps used throughout the model. -/
def setK {V : Type} (m : Path → Option V) (k : Path) (v : Option V) : Path → Option V :=
  fun k2 => if k2 = k then v else m k2

/-- `normalizeKey` from `datastore-pg.ts`: strip the home-directory prefix
including one following `/` or `\` separator so keys are portable across
machines; other keys are returned unchanged.  `home`
(`process.env.HOME ?? process.env.USERPROFILE ?? ""`) is passed explicitly. -/
def normalizeKey (home key : Path) : Path :=
  if home ≠ [] ∧ home.isPrefixOf key ∧
      (key.length = home.length ∨ key[home.length]? = some '/' ∨
        key[home.length]? = some '\\') then
    let sep : Nat :=
      if key[home.length]? = some '/' ∨ key[home.length]? = some '\\' then 1 else 0
    key.drop (home.length + sep)
  else key

/-- `path.isAbsolute` (posix shape used by the migrator): leading `/`. -/
def isAbsolutePath : Path → Bool
  | [] => false
  | c :: _ => c = '/'

/-- Shallow model of node `path.join(a, b)` for the argument shapes the
migrator produces (no `.` or `..` segments): concatenation with a single
`/` boundary. -/
def pathJoin (a b : Path) : Path :=
  if a = [] then b
  else if a.getLast? = some '/' then a ++ b
  else a ++ '/' :: b

/-- File path a DB row is restored to by `migrateDatabaseToFilesystem`:
`path.isAbsolute(row.key) ? row.key : path.join(home, row.key)`. -/
def materializePath (home key : Path) : Path :=
  if isAbsolutePath key then key else pathJoin home key

/-- The spec's notion of a key lying under the home directory
("matched on exact `home`, `home/…`, or `home\…`"). -/
def liesUnderHome (home key : Path) : Prop :=
  key = home ∨ (home ++ ['/']).isPrefixOf key ∨ (home ++ ['\\']).isPrefixOf key

lemma getElem?_append_self (l t : List Char) : (l ++ t)[l.length]? = t[0]? := by
  rw [List.getElem?_append_right (le_refl _)]
  simp

lemma drop_append_cons (l t : List Char) (c : Char) :
    (l ++ c :: t).drop (l.length + 1) = t := by
  rw [show l ++ c :: t = (l ++ [c]) ++ t by simp,
    show l.length + 1 = (l ++ [c]).length by simp]
  exact List.drop_left _ _

lemma isPrefixOf_self_append (l t : List Char) : l.isPrefixOf (l ++ t) = true := by
  rw [List.isPrefixOf_iff_prefix]
  exact List.prefix_append l t

lemma normalizeKey_strip (home rest : Path) (c : Char) (hh : home ≠ [])
    (hc : c = '/' ∨ c = '\\') :
    normalizeKey home (home ++ c :: rest) = rest := by
  have hget : (home ++ c :: rest)[home.length]? = some c := by
    rw [getElem?_append_self]
    simp
  have hcond : home ≠ [] ∧ home.isPrefixOf (home ++ c :: rest) ∧
      ((home ++ c :: rest).length = home.length ∨
        (home ++ c :: rest)[home.length]? = some '/' ∨
        (home ++ c :: rest)[home.length]? = some '\\') := by
    refine ⟨hh, isPrefixOf_self_append _ _, ?_⟩
    rcases hc with hc | hc <;> subst hc
    · exact Or.inr (Or.inl hget)
    · exact Or.inr (Or.inr hget)
  have hsep : ((home ++ c :: rest)[home.length]? = some '/' ∨
      (home ++ c :: rest)[home.length]? = some '\\') := by
    rcases hc with hc | hc <;> subst hc
    · exact Or.inl hget
    · exact Or.inr hget
  unfold normalizeKey
  rw [if_pos hcond, if_pos hsep]
  exact drop_append_cons _ _ _

lemma liesUnder_of_cond (home key : Path)
    (h : home ≠ [] ∧ home.isPrefixOf key ∧
      (key.length = home.length ∨ key[home.length]? = some '/' ∨
        key[home.length]? = some '\\')) :
    liesUnderHome home key := by
  obtain ⟨-, hpre, hdis⟩ := h
  rw [List.isPrefixOf_iff_prefix] at hpre
  obtain ⟨t, ht⟩ := hpre
  subst ht
  rcases hdis with hlen | hget | hget
  · left
    rw [List.length_append] at hlen
    have ht0 : t.length = 0 := by omega
    simp [List.length_eq_zero.mp ht0]
  · right; left
    rw [getElem?_append_self] at hget
    cases t with
    | nil => simp at hget
    | cons c t2 =>
      have hc : c = '/' := by simpa using hget
      subst hc
      rw [List.isPrefixOf_iff_prefix]
      exact ⟨t2, by simp⟩
  · right; right
    rw [getElem?_append_self] at hget
    cases t with
    | nil => simp at hget
    | cons c t2 =>
      have hc : c = '\\' := by simpa using hget
      subst hc
      rw [List.isPrefixOf_iff_prefix]
      exact ⟨t2, by simp⟩

lemma normalizeKey_of_not_under (home key : Path) (h : ¬ liesUnderHome home key) :
    normalizeKey home key = key := by
  unfold normalizeKey
  rw [if_neg]
  intro hcond
  exact h (liesUnder_of_cond home key hcond)

/-- Example paths from the spec: `home = /h/u`,
`/h/u/.openclaw/a.json`, `.openclaw/a.json`, `/var/lib/x.json`. -/
def exHome : Path := ['/', 'h', '/', 'u']

def exKey1 : Path :=
  ['/', 'h', '/', 'u', '/', '.', 'o', 'p', 'e', 'n', 'c', 'l', 'a', 'w', '/',
    'a', '.', 'j', 's', 'o', 'n']

def exRel1 : Path :=
  ['.', 'o', 'p', 'e', 'n', 'c', 'l', 'a', 'w', '/', 'a', '.', 'j', 's', 'o', 'n']

def exKey2 : Path :=
  ['/', 'v', 'a', 'r', '/', 'l', 'i', 'b', '/', 'x', '.', 'j', 's', 'o', 'n']

/-- **C7**: `normalize(key, home)` strips `home` plus exactly one following
path separator (`/` or `\`) when the key lies under `home`, yielding a
relative storage key, and otherwise returns the key unchanged; on DB→FS
restore a relative key is re-anchored under `home` and an absolute key is
used verbatim; with `home = /h/u`, `normalize("/h/u/.openclaw/a.json") =
".openclaw/a.json"` and `normalize("/var/lib/x.json") = "/var/lib/x.json"`,
and the first materializes back under `home` while the second is verbatim. -/
theorem C7_normalizeKey_materialize (home rest key : Path) (hh : home ≠ []) :
    (normalizeKey home (home ++ '/' :: rest) = rest) ∧
    (normalizeKey home (home ++ '\\' :: rest) = rest) ∧
    (¬ liesUnderHome home key → normalizeKey home key = key) ∧
    (isAbsolutePath key = false → materializePath home key = pathJoin home key) ∧
    (isAbsolutePath key = true → materializePath home key = key) ∧
    normalizeKey exHome exKey1 = exRel1 ∧
    normalizeKey exHome exKey2 = exKey2 ∧
    materializePath exHome exRel1 = exKey1 ∧
    materializePath exHome exKey2 = exKey2 := by
  refine ⟨normalizeKey_strip home rest '/' hh (Or.inl rfl),
    normalizeKey_strip home rest '\\' hh (Or.inr rfl),
    normalizeKey_of_not_under home key, ?_, ?_, by decide, by decide, by decide, by decide⟩
  · intro habs
    unfold materializePath
    rw [habs]
    rfl
  · intro habs
    unfold materializePath
    rw [habs]
    rfl

/-- Witness for `C7_normalizeKey_materialize` at concrete inputs. -/
theorem C7_normalizeKey_materialize_witness :
    (['h'] : Path) ≠ [] ∧ normalizeKey ['h'] (['h'] ++ '/' :: ['a', 'x']) = ['a', 'x'] :=
  ⟨by decide, (C7_normalizeKey_materialize ['h'] ['a', 'x'] ['q'] (by decide)).1⟩

/-! ## Bidirectional migrator (`migrate-datastore.ts`) -/

/-- A key-value map: DB table rows, or on-disk JSON files by path. -/
abbrev Kv (V : Type) := Path → Option V

/-- `INSERT … ON CONFLICT (key) DO NOTHING`: pre-existing rows are kept. -/
def insertDoNothing {V : Type} (db : Kv V) (k : Path) (v : V) : Kv V :=
  if (db k).isSome then db else setK db k (some v)

/-- The reserved upgrade sentinel key `_migration/fs-to-db`. -/
def sentinelKey : Path :=
  ['_', 'm', 'i', 'g', 'r', 'a', 't', 'i', 'o', 'n', '/', 'f', 's', '-', 't',
    'o', '-', 'd', 'b']

/-- Basename of the downgrade marker file `.migrated-from-db`. -/
def markerName : Path :=
  ['.', 'm', 'i', 'g', 'r', 'a', 't', 'e', 'd', '-', 'f', 'r', 'o', 'm', '-',
    'd', 'b']

/-- `path.join(stateDir, DOWNGRADE_MARKER)`. -/
def markerPath (stateDir : Path) : Path := pathJoin stateDir markerName

/-- Accumulator of `migrateFilesystemToDatabase`: the DB rows plus the
`migrated`/`failed` counters; `queries` counts the user-data INSERT
statements issued (zero means the loop never touched the DB). -/
structure MigFsToDb (V : Type) where
  db : Kv V
  migrated : Nat
  failed : Nat
  queries : Nat

/-- One iteration of the `for (const file of files)` loop of
`migrateFilesystemToDatabase`: `loadJsonFile` failure counts as failed;
otherwise the row is inserted with ON CONFLICT DO NOTHING under
`normalizeKey(file)`, and a query that throws (`insOk f = false`) counts
as failed. -/
def fsToDbStep {V : Type} (home : Path) (load : Path → Option V) (insOk : Path → Bool)
    (acc : MigFsToDb V) (f : Path) : MigFsToDb V :=
  match load f with
  | none => { acc with failed := acc.failed + 1 }
  | some data =>
    if insOk f then
      { acc with db := insertDoNothing acc.db (normalizeKey home f) data,
                 migrated := acc.migrated + 1, queries := acc.queries + 1 }
    else { acc with failed := acc.failed + 1, queries := acc.queries + 1 }

/-- The file loop of `migrateFilesystemToDatabase` over the collected
`*.json` files. -/
def fsToDbFold {V : Type} (home : Path) (load : Path → Option V) (insOk : Path → Bool)
    (files : List Path) (db0 : Kv V) : MigFsToDb V :=
  files.foldl (fsToDbStep home load insOk) ⟨db0, 0, 0, 0⟩

/-- `migrateFilesystemToDatabase(pool, stateDir)`: early return when the
state dir is missing or no files were collected; otherwise run the file
loop and, only when `failed == 0`, insert the sentinel row (also with
ON CONFLICT DO NOTHING). -/
def migrateFilesystemToDatabase {V : Type} (home : Path) (load : Path → Option V)
    (insOk : Path → Bool) (sentinelVal : V) (stateDirExists : Bool)
    (files : List Path) (db0 : Kv V) : MigFsToDb V :=
  if !stateDirExists then ⟨db0, 0, 0, 0⟩
  else if files = [] then ⟨db0, 0, 0, 0⟩
  else
    let r := fsToDbFold home load insOk files db0
    if r.failed = 0 then { r with db := insertDoNothing r.db sentinelKey sentinelVal }
    else r

/-- `runFilesystemToDatabaseMigration(stateDir)`: return when no pool is
configured, when the sentinel row already exists, or when the state dir is
missing; otherwise migrate. -/
def runFilesystemToDatabaseMigration {V : Type} (home : Path) (load : Path → Option V)
    (insOk : Path → Bool) (sentinelVal : V) (poolAvailable stateDirExists : Bool)
    (files : List Path) (db0 : Kv V) : MigFsToDb V :=
  if !poolAvailable then ⟨db0, 0, 0, 0⟩
  else if (db0 sentinelKey).isSome then ⟨db0, 0, 0, 0⟩
  else if !stateDirExists then ⟨db0, 0, 0, 0⟩
  else migrateFilesystemToDatabase home load insOk sentinelVal stateDirExists files db0

/-- Accumulator of `migrateDatabaseToFilesystem`: the on-disk files plus
counters; `writes` counts the `saveJsonFile` calls issued. -/
structure MigDbToFs (V : Type) where
  fs : Kv V
  migrated : Nat
  failed : Nat
  writes : Nat

/-- One iteration of the row loop of `migrateDatabaseToFilesystem`: compute
the materialized path; if the target already exists on disk, skip;
otherwise `saveJsonFile`, counting a throwing write (`wrOk = false`) as
failed. -/
def restoreRowStep {V : Type} (home : Path) (wrOk : Path → Bool)
    (acc : MigDbToFs V) (row : Path × V) : MigDbToFs V :=
  if (acc.fs (materializePath home row.1)).isSome then acc
  else if wrOk (materializePath home row.1) then
    { acc with fs := setK acc.fs (materializePath home row.1) (some row.2),
               migrated := acc.migrated + 1, writes := acc.writes + 1 }
  else { acc with failed := acc.failed + 1, writes := acc.writes + 1 }

/-- The row-restoration loop of `migrateDatabaseToFilesystem` over the
selected rows (`key NOT LIKE '_migration/%'`). -/
def restoreRows {V : Type} (home : Path) (wrOk : Path → Bool)
    (rows : List (Path × V)) (fs0 : Kv V) : MigDbToFs V :=
  rows.foldl (restoreRowStep home wrOk) ⟨fs0, 0, 0, 0⟩

/-- `migrateDatabaseToFilesystem(pool, stateDir)`: early return when the
query returned no rows; otherwise restore the rows and, only when
`failed == 0`, write the marker file `<stateDir>/.migrated-from-db`. -/
def migrateDatabaseToFilesystem {V : Type} (home : Path) (wrOk : Path → Bool)
    (stateDir : Path) (markerVal : V) (rows : List (Path × V)) (fs0 : Kv V) : MigDbToFs V :=
  if rows.length = 0 then ⟨fs0, 0, 0, 0⟩
  else
    let r := restoreRows home wrOk rows fs0
    if r.failed = 0 then { r with fs := setK r.fs (markerPath stateDir) (some markerVal) }
    else r

/-- `runDatabaseToFilesystemMigration(stateDir)`: return when no DB URL is
configured, when the marker file exists, or when no pool is available;
otherwise migrate. -/
def runDatabaseToFilesystemMigration {V : Type} (home : Path) (wrOk : Path → Bool)
    (stateDir : Path) (markerVal : V) (dbConfigured poolAvailable : Bool)
    (rows : List (Path × V)) (fs0 : Kv V) : MigDbToFs V :=
  if !dbConfigured then ⟨fs0, 0, 0, 0⟩
  else if (fs0 (markerPath stateDir)).isSome then ⟨fs0, 0, 0, 0⟩
  else if !poolAvailable then ⟨fs0, 0, 0, 0⟩
  else migrateDatabaseToFilesystem home wrOk stateDir markerVal rows fs0

lemma setK_same {V : Type} (m : Kv V) (k : Path) (v : Option V) : setK m k v k = v := by
  simp [setK]

lemma setK_other {V : Type} (m : Kv V) (k k2 : Path) (v : Option V) (h : k2 ≠ k) :
    setK m k v k2 = m k2 := by
  simp [setK, h]

lemma insertDoNothing_preserves {V : Type} (db : Kv V) (k k2 : Path) (v : V) (w : V)
    (h : db k = some v) : insertDoNothing db k2 w k = some v := by
  unfold insertDoNothing
  split
  · exact h
  · rename_i hns
    by_cases hk : k = k2
    · subst hk
      rw [h] at hns
      simp at hns
    · rw [setK_other _ _ _ _ hk]
      exact h

lemma insertDoNothing_other {V : Type} (db : Kv V) (k k2 : Path) (w : V)
    (h : k ≠ k2) : insertDoNothing db k2 w k = db k := by
  unfold insertDoNothing
  split
  · rfl
  · exact setK_other _ _ _ _ h

lemma fsToDbFold_preserves {V : Type} (home : Path) (load : Path → Option V)
    (insOk : Path → Bool) (files : List Path) (acc : MigFsToDb V) (k : Path) (v : V)
    (h : acc.db k = some v) :
    (files.foldl (fsToDbStep home load insOk) acc).db k = some v := by
  induction files generalizing acc with
  | nil => exact h
  | cons f fs ih =>
    apply ih
    unfold fsToDbStep
    cases load f with
    | none => exact h
    | some data =>
      simp only
      split
      · exact insertDoNothing_preserves _ _ _ _ _ h
      · exact h

lemma restoreRows_preserves {V : Type} (home : Path) (wrOk : Path → Bool)
    (rows : List (Path × V)) (acc : MigDbToFs V) (p : Path) (v : V)
    (h : acc.fs p = some v) :
    (rows.foldl (restoreRowStep home wrOk) acc).fs p = some v := by
  induction rows generalizing acc with
  | nil => exact h
  | cons row rs ih =>
    apply ih
    unfold restoreRowStep
    split
    · exact h
    · rename_i habsent
      split
      · simp only
        by_cases hp : p = materializePath home row.1
        · rw [hp] at h
          rw [h] at habsent
          simp at habsent
        · rw [setK_other _ _ _ _ hp]
          exact h
      · exact h

/-- **C8**: migration in both directions is non-destructive: FS→DB inserts
with ON CONFLICT DO NOTHING and never overwrites a pre-existing DB row, and
the DB→FS row restoration skips any row whose materialized file path
already exists on disk, never overwriting an existing file. -/
theorem C8_migration_nondestructive {V : Type} (home : Path) (load : Path → Option V)
    (insOk wrOk : Path → Bool) (sentinelVal : V) (stateDirExists : Bool)
    (files : List Path) (rows : List (Path × V)) (db0 fs0 : Kv V) (k p : Path) (v : V) :
    (db0 k = some v →
      (migrateFilesystemToDatabase home load insOk sentinelVal stateDirExists
          files db0).db k = some v) ∧
    (fs0 p = some v → (restoreRows home wrOk rows fs0).fs p = some v) := by
  constructor
  · intro h
    unfold migrateFilesystemToDatabase
    split
    · exact h
    · split
      · exact h
      · simp only
        split
        · exact insertDoNothing_preserves _ _ _ _ _
            (fsToDbFold_preserves home load insOk files ⟨db0, 0, 0, 0⟩ k v h)
        · exact fsToDbFold_preserves home load insOk files ⟨db0, 0, 0, 0⟩ k v h
  · intro h
    exact restoreRows_preserves home wrOk rows ⟨fs0, 0, 0, 0⟩ p v h

/-- Witness for `C8_migration_nondestructive`. -/
theorem C8_migration_nondestructive_witness :
    ((fun k => if k = ['a'] then some 1 else none) : Kv Nat) ['a'] = some 1 ∧
    (migrateFilesystemToDatabase [] (fun _ => some 2) (fun _ => true) 0 true
        [['a']] (fun k => if k = ['a'] then some 1 else none)).db ['a'] = some 1 :=
  ⟨by decide,
    (C8_migration_nondestructive [] (fun _ => some 2) (fun _ => true) (fun _ => true) 0 true
        [['a']] [] (fun k => if k = ['a'] then some 1 else none) (fun _ => none)
        ['a'] ['b'] 1).1 (by decide)⟩

lemma insertDoNothing_isSome_self {V : Type} (db : Kv V) (k : Path) (v : V) :
    (insertDoNothing db k v k).isSome := by
  unfold insertDoNothing
  split
  · assumption
  · rw [setK_same]
    rfl

lemma fsToDbFold_sentinel_none {V : Type} (home : Path) (load : Path → Option V)
    (insOk : Path → Bool) (files : List Path)
    (hk : ∀ f ∈ files, normalizeKey home f ≠ sentinelKey) (acc : MigFsToDb V)
    (h : acc.db sentinelKey = none) :
    (files.foldl (fsToDbStep home load insOk) acc).db sentinelKey = none := by
  induction files generalizing acc with
  | nil => exact h
  | cons f fs ih =>
    refine ih (fun g hg => hk g (List.mem_cons_of_mem f hg)) _ ?_
    unfold fsToDbStep
    cases load f with
    | none => exact h
    | some data =>
      simp only
      split
      · show insertDoNothing acc.db (normalizeKey home f) data sentinelKey = none
        rw [insertDoNothing_other _ _ _ _
          (fun he => hk f (List.mem_cons_self f fs) he.symm)]
        exact h
      · exact h

lemma restoreRows_marker_none {V : Type} (home : Path) (wrOk : Path → Bool)
    (rows : List (Path × V)) (mp : Path)
    (hr : ∀ row ∈ rows, materializePath home row.1 ≠ mp) (acc : MigDbToFs V)
    (h : acc.fs mp = none) :
    (rows.foldl (restoreRowStep home wrOk) acc).fs mp = none := by
  induction rows generalizing acc with
  | nil => exact h
  | cons row rs ih =>
    refine ih (fun g hg => hr g (List.mem_cons_of_mem row hg)) _ ?_
    unfold restoreRowStep
    split
    · exact h
    · split
      · simp only
        rw [setK_other _ _ _ _ (fun he => hr row (List.mem_cons_self row rs) he.symm)]
        exact h
      · exact h

/-- **C9**: migration is idempotent per direction: once the upgrade sentinel
(resp. the downgrade marker) exists, a second run in the same direction
issues no user-data writes and returns the DB/FS state unchanged; the
sentinel/marker is written only when zero files/rows failed. -/
theorem C9_migration_idempotent {V : Type} (home stateDir : Path) (load : Path → Option V)
    (insOk wrOk : Path → Bool) (sentinelVal markerVal : V)
    (poolAvailable stateDirExists dbConfigured poolAvailable2 : Bool)
    (files : List Path) (rows : List (Path × V)) (db0 fs0 : Kv V) :
    ((db0 sentinelKey).isSome →
      runFilesystemToDatabaseMigration home load insOk sentinelVal poolAvailable
        stateDirExists files db0 = ⟨db0, 0, 0, 0⟩) ∧
    ((fs0 (markerPath stateDir)).isSome →
      runDatabaseToFilesystemMigration home wrOk stateDir markerVal dbConfigured
        poolAvailable2 rows fs0 = ⟨fs0, 0, 0, 0⟩) ∧
    (stateDirExists = true → files ≠ [] →
      (fsToDbFold home load insOk files db0).failed = 0 →
      ((migrateFilesystemToDatabase home load insOk sentinelVal stateDirExists
          files db0).db sentinelKey).isSome) ∧
    ((∀ f ∈ files, normalizeKey home f ≠ sentinelKey) → db0 sentinelKey = none →
      (fsToDbFold home load insOk files db0).failed ≠ 0 →
      (migrateFilesystemToDatabase home load insOk sentinelVal stateDirExists
          files db0).db sentinelKey = none) ∧
    ((∀ row ∈ rows, materializePath home row.1 ≠ markerPath stateDir) →
      fs0 (markerPath stateDir) = none →
      (restoreRows home wrOk rows fs0).failed ≠ 0 →
      (migrateDatabaseToFilesystem home wrOk stateDir markerVal rows fs0).fs
        (markerPath stateDir) = none) ∧
    (rows.length ≠ 0 → (restoreRows home wrOk rows fs0).failed = 0 →
      (migrateDatabaseToFilesystem home wrOk stateDir markerVal rows fs0).fs
        (markerPath stateDir) = some markerVal) := by
  refine ⟨?_, ?_, ?_, ?_, ?_, ?_⟩
  · intro h
    simp [runFilesystemToDatabaseMigration, h]
  · intro h
    simp [runDatabaseToFilesystemMigration, h]
  · intro hsd hf hfail
    subst hsd
    unfold migrateFilesystemToDatabase
    rw [if_neg (by simp), if_neg hf]
    simp only
    rw [if_pos hfail]
    exact insertDoNothing_isSome_self _ _ _
  · intro hk h0 hfail
    unfold migrateFilesystemToDatabase
    split
    · exact h0
    · split
      · exact h0
      · simp only
        rw [if_neg hfail]
        exact fsToDbFold_sentinel_none home load insOk files hk ⟨db0, 0, 0, 0⟩ h0
  · intro hr h0 hfail
    unfold migrateDatabaseToFilesystem
    split
    · exact h0
    · simp only
      rw [if_neg hfail]
      exact restoreRows_marker_none home wrOk rows _ hr ⟨fs0, 0, 0, 0⟩ h0
  · intro hne hfail
    unfold migrateDatabaseToFilesystem
    rw [if_neg hne]
    simp only
    rw [if_pos hfail]
    exact setK_same _ _ _

/-- Witness for `C9_migration_idempotent`: a DB already holding the
sentinel row is returned unchanged with zero queries. -/
theorem C9_migration_idempotent_witness :
    (((fun k => if k = sentinelKey then some 0 else none) : Kv Nat) sentinelKey).isSome = true ∧
    runFilesystemToDatabaseMigration [] (fun _ => some 2) (fun _ => true) 1 true true
        [['a']] (fun k => if k = sentinelKey then some 0 else none) =
      ⟨(fun k => if k = sentinelKey then some 0 else none), 0, 0, 0⟩ :=
  ⟨by decide,
    (C9_migration_idempotent [] [] (fun _ => some 2) (fun _ => true) (fun _ => true) 1 1
        true true true true [['a']] [] (fun k => if k = sentinelKey then some 0 else none)
        (fun _ => none)).1 (by decide)⟩

/-! ## PostgreSQL datastore (`datastore-pg.ts`)

The module-level cache maps normalized keys to JS objects; object identity
(fresh per `structuredClone`) is modelled by an allocation tag drawn from
the `nextTag` counter.  Background write/delete tasks queued on the per-key
write chain are modelled in issue order in `pending`; settling a task
applies its row mutation on success and runs its cache-compensation
handler on failure. -/

/-- A JS object in the cache: payload plus identity (for `===`). -/
structure Obj (V : Type) where
  tag : Nat
  val : V

/-- Result shape of an `updateJsonWithLock` updater. -/
structure UpdRet (V : Type) where
  changed : Bool
  result : V

/-- Row mutation performed by a background task. -/
inductive TaskOp (V : Type) where
  | upsert (data : V)
  | del

/-- A queued background task together with the data its failure handler
captured: the clone it published to the cache (write tasks), and the prior
cache slot (`prev` / `hadPrev`). -/
structure Task (V : Type) where
  key : Path
  op : TaskOp V
  cloned : Option (Obj V)
  prev : Option (Obj V)
  hadPrev : Bool

/-- State of the PG backend: committed `openclaw_kv` rows, the module-level
write-through cache, the clone-identity allocator, and the queued
background tasks in issue order. -/
structure PgState (V : Type) where
  db : Kv V
  cache : Path → Option (Obj V)
  nextTag : Nat
  pending : List (Task V)

/-- The `PostgresDatastore` constructor: `cache.clear()` on the module-level
map shared by all instances. -/
def pgConstruct {V : Type} (st : PgState V) : PgState V :=
  { st with cache := fun _ => none }

/-- `readJson(key)`: synchronous cache lookup, returning a `structuredClone`
of the cached value, or null. -/
def pgReadJson {V : Type} (home key : Path) (st : PgState V) : Option V :=
  (st.cache (normalizeKey home key)).map Obj.val

/-- `writeJson(key, data)`: capture `prev`/`hadPrev`, clone `data`, set the
cache entry synchronously, and append the DB upsert task to the write
chain. -/
def pgWriteJson {V : Type} (home key : Path) (data : V) (st : PgState V) : PgState V :=
  { db := st.db
    cache := setK st.cache (normalizeKey home key) (some ⟨st.nextTag, data⟩)
    nextTag := st.nextTag + 1
    pending := st.pending ++
      [⟨normalizeKey home key, .upsert data, some ⟨st.nextTag, data⟩,
        st.cache (normalizeKey home key), (st.cache (normalizeKey home key)).isSome⟩] }

/-- `writeJsonWithBackup` delegates to `writeJson` on the DB backend. -/
def pgWriteJsonWithBackup {V : Type} (home key : Path) (data : V) (st : PgState V) :
    PgState V :=
  pgWriteJson home key data st

/-- `writeText(key, s)`: wrap the string in the `{__text: s}` marker object
(abstracted as `wrap`) and delegate to `writeJson`. -/
def pgWriteText {V : Type} (wrap : String → V) (home key : Path) (content : String)
    (st : PgState V) : PgState V :=
  pgWriteJson home key (wrap content) st

/-- `delete(key)`: capture `prev`/`hadPrev`, clear the cache entry
synchronously, and append the DB delete task to the write chain. -/
def pgDelete {V : Type} (home key : Path) (st : PgState V) : PgState V :=
  { db := st.db
    cache := setK st.cache (normalizeKey home key) none
    nextTag := st.nextTag
    pending := st.pending ++
      [⟨normalizeKey home key, .del, none,
        st.cache (normalizeKey home key), (st.cache (normalizeKey home key)).isSome⟩] }

/-- `cache.get(dbKey) === cloned`: both slots hold the same object. -/
def sameObj {V : Type} : Option (Obj V) → Option (Obj V) → Bool
  | some a, some b => a.tag == b.tag
  | _, _ => false

/-- Durable effect of a task that committed: upsert or delete of its row. -/
def settleOk {V : Type} (t : Task V) (db : Kv V) : Kv V :=
  match t.op with
  | .upsert d => setK db t.key (some d)
  | .del => setK db t.key none

/-- Cache compensation run by a task's `.catch` handler: a failed write
reverts the entry only if the slot still holds the clone this task
published; a failed delete restores the prior entry only if the slot is
still absent. -/
def settleFail {V : Type} (t : Task V) (cache : Path → Option (Obj V)) :
    Path → Option (Obj V) :=
  match t.op with
  | .upsert _ =>
    if sameObj (cache t.key) t.cloned then
      if t.hadPrev then setK cache t.key t.prev else setK cache t.key none
    else cache
  | .del =>
    if (cache t.key).isNone ∧ t.hadPrev then setK cache t.key t.prev else cache

/-- Settle one background task with the given outcome. -/
def settleTask {V : Type} (ok : Bool) (t : Task V) (st : PgState V) : PgState V :=
  if ok then { st with db := settleOk t st.db }
  else { st with cache := settleFail t st.cache }

/-- Settle a list of tasks in issue order; `outs` gives each task's outcome
(missing entries default to success). -/
def runTasks {V : Type} : List Bool → List (Task V) → PgState V → PgState V
  | _, [], st => st
  | outs, t :: ts, st => runTasks outs.tail ts (settleTask (outs.headD true) t st)

/-- `flush()`: `Promise.allSettled` over the pending background tasks — it
resolves whether each task commits or fails. -/
def pgFlush {V : Type} (outs : List Bool) (st : PgState V) : PgState V :=
  { runTasks outs st.pending st with pending := [] }

/-- `withTransaction(pool, fn)`: the body's writes commit on success; on an
exception the transaction is rolled back (DB unchanged) and the error
propagates. -/
def withTransaction {V T E : Type} (db : Kv V) (body : Kv V → Except E (Kv V × T)) :
    Kv V × Except E T :=
  match body db with
  | .ok (db2, t) => (db2, .ok t)
  | .error e => (db, .error e)

/-- `updateJsonWithLock(key, updater)` of the PG backend: inside a
transaction, take the advisory lock, SELECT the row (absent ⇒ null), run
the updater, upsert only when `changed`, commit; then reconcile the cache
with the value observed under the lock (set a clone when non-null, delete
when null).  A throwing updater rolls the transaction back and leaves the
cache untouched. -/
def pgUpdateJsonWithLock {V E : Type} (home key : Path)
    (updater : Option V → Except E (UpdRet V)) (st : PgState V) :
    PgState V × Except E Unit :=
  match withTransaction st.db (fun db =>
    match updater (db (normalizeKey home key)) with
    | .error e => .error e
    | .ok r =>
      if r.changed then
        .ok (setK db (normalizeKey home key) (some r.result), some r.result)
      else .ok (db, db (normalizeKey home key))) with
  | (db2, .ok value) =>
    match value with
    | some v =>
      ({ st with db := db2,
                 cache := setK st.cache (normalizeKey home key) (some ⟨st.nextTag, v⟩),
                 nextTag := st.nextTag + 1 }, .ok ())
    | none =>
      ({ st with db := db2, cache := setK st.cache (normalizeKey home key) none }, .ok ())
  | (db2, .error e) => ({ st with db := db2 }, .error e)

/-! ## Filesystem datastore (`datastore-fs.ts`) -/

/-- Boolean map update (per-path lock flags). -/
def setL (m : Path → Bool) (k : Path) (b : Bool) : Path → Bool :=
  fun k2 => if k2 = k then b else m k2

/-- State of the FS backend: the on-disk files and the per-path `.lock`
sidecars. -/
structure FsState (V : Type) where
  files : Kv V
  locks : Path → Bool

/-- `writeJson(key, data)` of the FS backend: synchronous `saveJsonFile`
(atomic rename over a temp sibling). -/
def fsWriteJson {V : Type} (key : Path) (data : V) (st : FsState V) : FsState V :=
  { st with files := setK st.files key (some data) }

/-- `delete(key)` of the FS backend: unlink, absent file tolerated. -/
def fsDelete {V : Type} (key : Path) (st : FsState V) : FsState V :=
  { st with files := setK st.files key none }

/-- `flush()` of the FS backend: a no-op, writes are synchronous. -/
def fsFlush {V : Type} (st : FsState V) : FsState V := st

/-- `updateJsonWithLock(key, updater)` of the FS backend: under
`withFileLock`, strictly read the current file (absent ⇒ null), run the
updater, save only when `changed`; the lock is released on every exit path
including a throwing updater. -/
def fsUpdateJsonWithLock {V E : Type} (key : Path)
    (updater : Option V → Except E (UpdRet V)) (st : FsState V) :
    FsState V × Except E Unit :=
  match updater (st.files key) with
  | .error e => (⟨st.files, setL st.locks key false⟩, .error e)
  | .ok r =>
    (⟨if r.changed then setK st.files key (some r.result) else st.files,
      setL st.locks key false⟩, .ok ())

lemma setL_same (m : Path → Bool) (k : Path) (b : Bool) : setL m k b k = b := by
  simp [setL]

/-- **C10**: constructing a `PostgresDatastore` clears the module-level
cache shared by all instances in the process: immediately after
construction and before any preload or write, `readJson` returns null for
every key, values cached by a previous instance are discarded for all
keys, and the stored rows are untouched. -/
theorem C10_constructor_clears_cache {V : Type} (home k k2 : Path) (st : PgState V) :
    pgReadJson home k (pgConstruct st) = none ∧
    (pgConstruct st).cache k2 = none ∧
    (pgConstruct st).db = st.db :=
  ⟨rfl, rfl, rfl⟩

/-- **C2**: a throwing updater makes `updateJsonWithLock` propagate the
failure with no persistent effect: the DB transaction is rolled back so
the row, the cache and the pending queue are unchanged, and on the FS
backend no file is written and the file lock is released. -/
theorem C2_updater_failure_no_effect {V E : Type} (home key fkey : Path)
    (updater : Option V → Except E (UpdRet V)) (st : PgState V) (fst : FsState V) (e : E)
    (hdb : updater (st.db (normalizeKey home key)) = .error e)
    (hfs : updater (fst.files fkey) = .error e) :
    (pgUpdateJsonWithLock home key updater st).2 = .error e ∧
    (pgUpdateJsonWithLock home key updater st).1 = st ∧
    (fsUpdateJsonWithLock fkey updater fst).2 = .error e ∧
    (fsUpdateJsonWithLock fkey updater fst).1.files = fst.files ∧
    (fsUpdateJsonWithLock fkey updater fst).1.locks fkey = false := by
  simp only [pgUpdateJsonWithLock, withTransaction, fsUpdateJsonWithLock, hdb, hfs]
  refine ⟨?_, ?_, ?_, ?_, ?_⟩ <;> first | rfl | trivial | exact setL_same _ _ _

/-- The empty PG backend state. -/
def pgEmptySt : PgState Nat := ⟨fun _ => none, fun _ => none, 0, []⟩

/-- An updater that always throws. -/
def cFailUpd : Option Nat → Except Unit (UpdRet Nat) := fun _ => .error ()

/-- Witness for `C2_updater_failure_no_effect`. -/
theorem C2_updater_failure_no_effect_witness :
    cFailUpd (pgEmptySt.db (normalizeKey [] ['k'])) = .error () ∧
    (pgUpdateJsonWithLock [] ['k'] cFailUpd pgEmptySt).2 = .error () :=
  ⟨rfl,
    (C2_updater_failure_no_effect [] ['k'] ['k'] cFailUpd pgEmptySt
        ⟨fun _ => none, fun _ => false⟩ () rfl rfl).1⟩

/-- **C4**: on the DB backend `writeJson` clones the document and updates
the cache synchronously, before the background upsert runs (the row is
still unchanged and the upsert sits in the pending queue), so an immediate
read of the same key already returns the new value; and after any
successful `writeJson`/`updateJsonWithLock`/`delete` the cache reflects the
post-write state for that key before the operation reports completion. -/
theorem C4_cache_write_through {V E : Type} (home key : Path) (d : V)
    (updater : Option V → Except E (UpdRet V)) (r : UpdRet V) (st : PgState V)
    (hupd : updater (st.db (normalizeKey home key)) = .ok r) :
    pgReadJson home key (pgWriteJson home key d st) = some d ∧
    (pgWriteJson home key d st).db = st.db ∧
    (pgWriteJson home key d st).pending =
      st.pending ++ [⟨normalizeKey home key, .upsert d, some ⟨st.nextTag, d⟩,
        st.cache (normalizeKey home key), (st.cache (normalizeKey home key)).isSome⟩] ∧
    pgReadJson home key (pgDelete home key st) = none ∧
    (pgDelete home key st).db = st.db ∧
    (pgUpdateJsonWithLock home key updater st).2 = .ok () ∧
    pgReadJson home key (pgUpdateJsonWithLock home key updater st).1 =
      (pgUpdateJsonWithLock home key updater st).1.db (normalizeKey home key) := by
  refine ⟨by simp [pgReadJson, pgWriteJson, setK_same], rfl, rfl,
    by simp [pgReadJson, pgDelete, setK_same], rfl, ?_, ?_⟩
  · simp only [pgUpdateJsonWithLock, withTransaction, hupd]
    cases hc : r.changed
    · simp only [hc, if_false, Bool.false_eq_true]
      cases st.db (normalizeKey home key) <;> rfl
    · simp [hc]
  · simp only [pgUpdateJsonWithLock, withTransaction, hupd]
    cases hc : r.changed
    · cases hv : st.db (normalizeKey home key) <;>
        simp [hc, hv, pgReadJson, setK_same]
    · simp [hc, pgReadJson, setK_same]

/-- An updater that returns `{changed: true, result: 7}`. -/
def c4Upd : Option Nat → Except Unit (UpdRet Nat) := fun _ => .ok ⟨true, 7⟩

/-- Witness for `C4_cache_write_through`. -/
theorem C4_cache_write_through_witness :
    c4Upd (pgEmptySt.db (normalizeKey [] ['k'])) = .ok ⟨true, 7⟩ ∧
    pgReadJson [] ['k'] (pgWriteJson [] ['k'] 42 pgEmptySt) = some 42 :=
  ⟨rfl, (C4_cache_write_through [] ['k'] 42 c4Upd ⟨true, 7⟩ pgEmptySt rfl).1⟩

/-- A DB holding the single row `k = 5`. -/
def c3Db : Kv Nat := fun k => if k = ['k'] then some 5 else none

/-- A reachable state: `writeJson("k", 99)` has updated the cache but its
background upsert has not committed yet, while the DB row still holds 5. -/
def c3St : PgState Nat := pgWriteJson [] ['k'] 99 ⟨c3Db, fun _ => none, 0, []⟩

/-- Same scenario over an empty DB: the row for `k` is absent. -/
def c3StB : PgState Nat := pgWriteJson [] ['k'] 99 ⟨fun _ => none, fun _ => none, 0, []⟩

/-- An updater returning `{changed: false, result: current}`. -/
def c3Upd : Option Nat → Except Unit (UpdRet Nat) := fun c => .ok ⟨false, c.getD 0⟩

/-- **C3 counterexample**: with `writeJson("k", 99)` still pending, an
`updateJsonWithLock("k", u)` whose updater returns
`{changed: false, result: current}` does modify the cache entry: it is
reconciled to the committed row (99 ↦ 5), and when the row is absent the
entry is deleted outright — contradicting "the cache entry for the key is
not modified (in particular not deleted)". -/
theorem C3_counterexample :
    pgReadJson [] ['k'] c3St = some 99 ∧
    (pgUpdateJsonWithLock [] ['k'] c3Upd c3St).2 = .ok () ∧
    pgReadJson [] ['k'] (pgUpdateJsonWithLock [] ['k'] c3Upd c3St).1 = some 5 ∧
    (c3StB.cache ['k']).isSome = true ∧
    (pgUpdateJsonWithLock [] ['k'] c3Upd c3StB).2 = .ok () ∧
    ((pgUpdateJsonWithLock [] ['k'] c3Upd c3StB).1.cache ['k']).isNone = true :=
  ⟨by decide, rfl, by decide, by decide, rfl, by decide⟩

/-- **C3 (amended)**: if the updater returns `{changed: false, result:
current}`, no durable write happens — no upsert is issued (row and pending
queue unchanged) and the FS file is not rewritten — but on the DB backend
the cache entry for the key is reconciled with the row observed under the
lock: set to a fresh clone of the stored value when the row exists and
deleted when it is absent (hence unchanged in value only when the cache
already agreed with the row); cache entries of other keys are untouched. -/
theorem C3_changed_false_no_durable_write {V E : Type} (home key fkey : Path)
    (updater : Option V → Except E (UpdRet V)) (r : UpdRet V) (st : PgState V)
    (fst : FsState V)
    (hdb : updater (st.db (normalizeKey home key)) = .ok r)
    (hfs : updater (fst.files fkey) = .ok r)
    (hch : r.changed = false) :
    (pgUpdateJsonWithLock home key updater st).1.db = st.db ∧
    (pgUpdateJsonWithLock home key updater st).1.pending = st.pending ∧
    (pgUpdateJsonWithLock home key updater st).2 = .ok () ∧
    (pgUpdateJsonWithLock home key updater st).1.cache =
      setK st.cache (normalizeKey home key)
        ((st.db (normalizeKey home key)).map fun v => ⟨st.nextTag, v⟩) ∧
    (∀ k2, k2 ≠ normalizeKey home key →
      (pgUpdateJsonWithLock home key updater st).1.cache k2 = st.cache k2) ∧
    (fsUpdateJsonWithLock fkey updater fst).1.files = fst.files := by
  simp only [pgUpdateJsonWithLock, withTransaction, fsUpdateJsonWithLock, hdb, hch,
    hfs, if_false, Bool.false_eq_true]
  cases hv : st.db (normalizeKey home key) <;>
    refine ⟨?_, ?_, ?_, ?_, ?_, ?_⟩ <;>
      first
        | rfl
        | trivial
        | exact fun k2 h2 => setK_other _ _ _ _ h2

/-- Witness for `C3_changed_false_no_durable_write`. -/
theorem C3_changed_false_no_durable_write_witness :
    (c3Upd (c3St.db (normalizeKey [] ['k'])) = .ok ⟨false, 5⟩) ∧
    (pgUpdateJsonWithLock [] ['k'] c3Upd c3St).1.db = c3St.db :=
  ⟨rfl,
    (C3_changed_false_no_durable_write [] ['k'] ['k'] c3Upd ⟨false, 5⟩ c3St
        ⟨fun _ => some 5, fun _ => false⟩ rfl rfl rfl).1⟩

/-- **C5**: when a background write (or delete) task for key `k` fails, the
cache entry is reverted to its prior value only if the slot still holds
the exact clone the failed task published (for delete: only if the slot is
still absent); a later `writeJson` publishes a fresh clone with a new
identity, so the failed task leaves the newer entry untouched. -/
theorem C5_failed_task_revert_not_superseded {V : Type} (home k2 : Path) (d2 : V)
    (t : Task V) (st : PgState V) (d : V) (c : Obj V) :
    (t.op = .upsert d → sameObj (st.cache t.key) t.cloned = true →
      (settleTask false t st).cache t.key = (if t.hadPrev then t.prev else none)) ∧
    (t.op = .upsert d → sameObj (st.cache t.key) t.cloned = false →
      (settleTask false t st).cache = st.cache) ∧
    (t.op = .del → st.cache t.key = none → t.hadPrev = true →
      (settleTask false t st).cache t.key = t.prev) ∧
    (t.op = .del → (st.cache t.key).isSome →
      (settleTask false t st).cache = st.cache) ∧
    (t.op = .upsert d → t.cloned = some c → c.tag < st.nextTag →
      normalizeKey home k2 = t.key →
      (settleTask false t (pgWriteJson home k2 d2 st)).cache =
        (pgWriteJson home k2 d2 st).cache) ∧
    ((settleTask true t st).db = settleOk t st.db ∧
      (settleTask true t st).cache = st.cache) := by
  refine ⟨?_, ?_, ?_, ?_, ?_, rfl, rfl⟩
  · intro hop hsame
    simp only [settleTask, if_false, Bool.false_eq_true, settleFail, hop, hsame, if_true]
    split
    · exact setK_same _ _ _
    · exact setK_same _ _ _
  · intro hop hsame
    simp [settleTask, settleFail, hop, hsame]
  · intro hop habs hprev
    simp only [settleTask, if_false, Bool.false_eq_true, settleFail, hop]
    rw [if_pos ⟨by simp [habs], hprev⟩]
    exact setK_same _ _ _
  · intro hop hsome
    simp only [settleTask, if_false, Bool.false_eq_true, settleFail, hop]
    rw [if_neg]
    intro hcon
    rw [Option.isNone_iff_eq_none.mp hcon.1] at hsome
    simp at hsome
  · intro hop hcl htag hk
    simp only [settleTask, if_false, Bool.false_eq_true, settleFail, hop]
    rw [if_neg]
    simp only [pgWriteJson, hk, setK_same, hcl, sameObj]
    intro hcon
    have : st.nextTag = c.tag := by
      have hb := hcon
      simpa using hb
    omega

/-- Witness for `C5_failed_task_revert_not_superseded`. -/
theorem C5_failed_task_revert_not_superseded_witness :
    ((⟨['k'], .upsert 7, some ⟨0, 7⟩, none, false⟩ : Task Nat).op = .upsert 7) ∧
    (settleTask false (⟨['k'], .upsert 7, some ⟨0, 7⟩, none, false⟩ : Task Nat)
        ⟨fun _ => none, fun k => if k = ['k'] then some ⟨0, 7⟩ else none, 1, []⟩).cache
      ['k'] = (if False then none else none) := by
  constructor
  · rfl
  · have h := (C5_failed_task_revert_not_superseded [] ['k'] (3 : Nat)
        ⟨['k'], .upsert 7, some ⟨0, 7⟩, none, false⟩
        ⟨fun _ => none, fun k => if k = ['k'] then some ⟨0, 7⟩ else none, 1, []⟩ 7
        ⟨0, 7⟩).1 rfl (by decide)
    simpa using h

/-! ## `flush()` durability (C6) -/

/-- A user-visible background-write mutation issued before `flush()`
(`writeText` and `writeJsonWithBackup` delegate to `writeJson`). -/
inductive PgOp (V : Type) where
  | write (key : Path) (data : V)
  | del (key : Path)

/-- Apply one mutation to the backend state. -/
def applyOp {V : Type} (home : Path) (st : PgState V) : PgOp V → PgState V
  | .write k d => pgWriteJson home k d st
  | .del k => pgDelete home k st

/-- Apply a sequence of mutations in issue order. -/
def applyOps {V : Type} (home : Path) (ops : List (PgOp V)) (st : PgState V) : PgState V :=
  ops.foldl (applyOp home) st

/-- Persisted value for normalized key `k` prescribed by the last mutation
in `ops` that touches `k` (`none` when no mutation touches it). -/
def lastOpEffect {V : Type} (home : Path) (ops : List (PgOp V)) (k : Path) :
    Option (Option V) :=
  ops.foldl (fun acc op =>
    match op with
    | .write k2 d => if normalizeKey home k2 = k then some (some d) else acc
    | .del k2 => if normalizeKey home k2 = k then some none else acc) none

/-- A `writeJson("k", 42)` against an empty store, not yet flushed. -/
def c6St : PgState Nat := pgWriteJson [] ['k'] 42 pgEmptySt

/-- **C6 counterexample**: `flush()` awaits `Promise.allSettled`, so when
the single background upsert of `writeJson("k", 42)` fails, `flush`
resolves with nothing pending while the row was never committed — the
write issued before `flush()` is not durable (the cache is also reverted). -/
theorem C6_counterexample :
    c6St.pending.length = 1 ∧
    pgReadJson [] ['k'] c6St = some 42 ∧
    (pgFlush [false] c6St).pending.length = 0 ∧
    (pgFlush [false] c6St).db ['k'] = none ∧
    pgReadJson [] ['k'] (pgFlush [false] c6St) = none := by
  decide

lemma runTasks_allOk_db {V : Type} (ts : List (Task V)) (st : PgState V) :
    (runTasks [] ts st).db = ts.foldl (fun db t => settleOk t db) st.db := by
  induction ts generalizing st with
  | nil => rfl
  | cons t ts2 ih =>
    show (runTasks [] ts2 (settleTask true t st)).db = _
    rw [ih]
    rfl

lemma applyOps_append {V : Type} (home : Path) (l : List (PgOp V)) (a : PgOp V)
    (st : PgState V) :
    applyOps home (l ++ [a]) st = applyOp home (applyOps home l st) a := by
  simp [applyOps, List.foldl_append]

lemma lastOpEffect_append {V : Type} (home : Path) (l : List (PgOp V)) (a : PgOp V)
    (k : Path) :
    lastOpEffect home (l ++ [a]) k =
      (match a with
       | .write k2 d =>
         if normalizeKey home k2 = k then some (some d) else lastOpEffect home l k
       | .del k2 => if normalizeKey home k2 = k then some none else lastOpEffect home l k) := by
  cases a <;> simp [lastOpEffect, List.foldl_append]

lemma pgFlush_allOk_applyOp_db {V : Type} (home : Path) (a : PgOp V) (st : PgState V)
    (k : Path) :
    (pgFlush [] (applyOp home st a)).db k =
      (match a with
       | .write k2 d =>
         if k = normalizeKey home k2 then some d else (pgFlush [] st).db k
       | .del k2 => if k = normalizeKey home k2 then none else (pgFlush [] st).db k) := by
  cases a with
  | write k2 d =>
    show (pgFlush [] (pgWriteJson home k2 d st)).db k = _
    simp [pgFlush, pgWriteJson, runTasks_allOk_db, List.foldl_append, settleOk, setK]
  | del k2 =>
    show (pgFlush [] (pgDelete home k2 st)).db k = _
    simp [pgFlush, pgDelete, runTasks_allOk_db, List.foldl_append, settleOk, setK]

lemma flush_allOk_db_eq {V : Type} (home : Path) (ops : List (PgOp V)) (st : PgState V)
    (hp : st.pending = []) (k : Path) :
    (pgFlush [] (applyOps home ops st)).db k =
      (match lastOpEffect home ops k with
       | some v => v
       | none => st.db k) := by
  induction ops using List.reverseRecOn with
  | nil =>
    show (pgFlush [] st).db k = st.db k
    simp [pgFlush, runTasks_allOk_db, hp]
  | append_singleton l a ih =>
    rw [applyOps_append, pgFlush_allOk_applyOp_db, lastOpEffect_append]
    cases a with
    | write k2 d =>
      dsimp only
      by_cases hk : normalizeKey home k2 = k
      · rw [if_pos hk.symm, if_pos hk]
      · rw [if_neg (fun h => hk h.symm), if_neg hk]
        exact ih
    | del k2 =>
      dsimp only
      by_cases hk : normalizeKey home k2 = k
      · rw [if_pos hk.symm, if_pos hk]
      · rw [if_neg (fun h => hk h.symm), if_neg hk]
        exact ih

/-- **C6 (amended)**: after `flush()` resolves, no background task remains
pending, and every `writeJson`/`writeText`/`writeJsonWithBackup`/`delete`
issued before the flush whose background task succeeded is durable: when
all tasks succeed the DB holds, for every key, the value of the last
mutation issued for that key (a write whose task failed is not durable —
`flush` still resolves, per the counterexample).  On the FS backend
`flush` is a no-op over synchronous writes. -/
theorem C6_flush_durability_of_settled {V : Type} (home : Path) (ops : List (PgOp V))
    (st : PgState V) (fst : FsState V) (outs : List Bool) (k : Path)
    (hp : st.pending = []) :
    (pgFlush outs (applyOps home ops st)).pending = [] ∧
    ((pgFlush [] (applyOps home ops st)).db k =
      match lastOpEffect home ops k with
      | some v => v
      | none => st.db k) ∧
    fsFlush fst = fst :=
  ⟨rfl, flush_allOk_db_eq home ops st hp k, rfl⟩

/-- Witness for `C6_flush_durability_of_settled`: two writes to the same
key, all background tasks succeeding — the flushed DB holds the last one. -/
theorem C6_flush_durability_of_settled_witness :
    (pgEmptySt.pending = []) ∧
    ((pgFlush [] (applyOps [] [PgOp.write ['k'] 1, PgOp.write ['k'] 2] pgEmptySt)).db ['k'] =
      match lastOpEffect [] [PgOp.write ['k'] 1, PgOp.write ['k'] 2] ['k'] with
      | some v => v
      | none => pgEmptySt.db ['k']) :=
  ⟨rfl,
    (C6_flush_durability_of_settled [] [PgOp.write ['k'] 1, PgOp.write ['k'] 2] pgEmptySt
        ⟨fun _ => none, fun _ => false⟩ [] ['k'] rfl).2.1⟩

/-! ## Per-key serializability of `updateJsonWithLock` (C1)

Both backends run the same single-key protocol: acquire an exclusive
per-key lock (`withFileLock` / `pg_advisory_xact_lock` inside the
transaction), read the current value (strict parse of the file /
`SELECT data`), run the updater once on that snapshot, persist `result`
only when `changed` (`saveJsonFile` / upsert-at-commit), and release the
lock.  Concurrent invocations interleave at arbitrary suspension points,
but the lock guards every store access: only the holder may read or
write.  While a DB upsert becomes visible at commit (= release) rather
than at the write step, no other invocation can observe the store in
between, because observing requires the lock. -/

/-- Effect of one read-modify-write on the persisted value: persist
`result` when `changed`, otherwise leave the value alone. -/
def applyUpd {V : Type} (u : Option V → UpdRet V) (s : Option V) : Option V :=
  if (u s).changed then some (u s).result else s

/-- Sequential execution of the invocations listed in `l` from `s0`. -/
def runSeq {n : Nat} {V : Type} (upd : Fin n → Option V → UpdRet V) (s0 : Option V)
    (l : List (Fin n)) : Option V :=
  l.foldl (fun s i => applyUpd (upd i) s) s0

/-- Program counter of one `updateJsonWithLock` invocation. -/
inductive UPC (V : Type) where
  | ready
  | acquired
  | readDone (snap : Option V)
  | written (snap : Option V)
  | released (snap : Option V)

/-- Shared single-key state: the persisted value, the lock holder, and
every invocation's program counter. -/
structure USt (n : Nat) (V : Type) where
  store : Option V
  lock : Option (Fin n)
  pcs : Fin n → UPC V

/-- Interleaving semantics of `n` concurrent `updateJsonWithLock`
invocations on one key: the lock is acquired only when free, and only the
holder may read the store, apply its updater (writing only when
`changed`), and release. -/
inductive UStep {n : Nat} {V : Type} (upd : Fin n → Option V → UpdRet V) :
    USt n V → USt n V → Prop where
  | acquire (i : Fin n) (st : USt n V) (hl : st.lock = none) (hp : st.pcs i = .ready) :
      UStep upd st ⟨st.store, some i, Function.update st.pcs i .acquired⟩
  | readStep (i : Fin n) (st : USt n V) (hl : st.lock = some i)
      (hp : st.pcs i = .acquired) :
      UStep upd st ⟨st.store, st.lock, Function.update st.pcs i (.readDone st.store)⟩
  | writeStep (i : Fin n) (st : USt n V) (snap : Option V) (hl : st.lock = some i)
      (hp : st.pcs i = .readDone snap) :
      UStep upd st
        ⟨if (upd i snap).changed then some (upd i snap).result else st.store, st.lock,
          Function.update st.pcs i (.written snap)⟩
  | releaseStep (i : Fin n) (st : USt n V) (snap : Option V) (hl : st.lock = some i)
      (hp : st.pcs i = .written snap) :
      UStep upd st ⟨st.store, none, Function.update st.pcs i (.released snap)⟩

/-- The snapshot recorded in a program counter once the read happened. -/
def pcSnap {V : Type} : UPC V → Option (Option V)
  | .readDone s => some s
  | .written s => some s
  | .released s => some s
  | _ => none

/-- `SnapChain upd pcs l s t`: running the invocations of `l` in order
from value `s` ends at `t`, and the snapshot each one observed equals the
value produced by its predecessors in `l`. -/
def SnapChain {n : Nat} {V : Type} (upd : Fin n → Option V → UpdRet V)
    (pcs : Fin n → UPC V) : List (Fin n) → Option V → Option V → Prop
  | [], s, t => t = s
  | i :: rest, s, t =>
    (∀ s2, pcSnap (pcs i) = some s2 → s2 = s) ∧
    SnapChain upd pcs rest (applyUpd (upd i) s) t

lemma snapChain_update_of_not_mem {n : Nat} {V : Type}
    (upd : Fin n → Option V → UpdRet V) (pcs : Fin n → UPC V) (j : Fin n) (v : UPC V)
    (l : List (Fin n)) (hj : j ∉ l) (s t : Option V) :
    SnapChain upd (Function.update pcs j v) l s t ↔ SnapChain upd pcs l s t := by
  induction l generalizing s with
  | nil => exact Iff.rfl
  | cons i rest ih =>
    rw [List.mem_cons, not_or] at hj
    have h1 : j ≠ i := hj.1
    have h2 : j ∉ rest := hj.2
    show ((∀ s2, pcSnap (Function.update pcs j v i) = some s2 → s2 = s) ∧ _) ↔ _
    rw [Function.update_noteq (Ne.symm h1)]
    exact and_congr Iff.rfl (ih h2 _)

lemma snapChain_snoc {n : Nat} {V : Type} (upd : Fin n → Option V → UpdRet V)
    (pcs : Fin n → UPC V) (l : List (Fin n)) (i : Fin n) (s t : Option V) :
    SnapChain upd pcs (l ++ [i]) s t ↔
      ∃ m, SnapChain upd pcs l s m ∧
        (∀ s2, pcSnap (pcs i) = some s2 → s2 = m) ∧ t = applyUpd (upd i) m := by
  induction l generalizing s with
  | nil =>
    constructor
    · rintro ⟨h1, h2⟩
      exact ⟨s, rfl, h1, h2⟩
    · rintro ⟨m, hm, h1, h2⟩
      have : m = s := hm
      subst this
      exact ⟨h1, h2⟩
  | cons a rest ih =>
    show ((∀ s2, pcSnap (pcs a) = some s2 → s2 = s) ∧
        SnapChain upd pcs (rest ++ [i]) (applyUpd (upd a) s) t) ↔ _
    rw [ih]
    constructor
    · rintro ⟨ha, m, h1, h2, h3⟩
      exact ⟨m, ⟨ha, h1⟩, h2, h3⟩
    · rintro ⟨m, ⟨ha, h1⟩, h2, h3⟩
      exact ⟨ha, m, h1, h2, h3⟩

lemma snapChain_runSeq {n : Nat} {V : Type} (upd : Fin n → Option V → UpdRet V)
    (pcs : Fin n → UPC V) (l : List (Fin n)) (s t : Option V)
    (h : SnapChain upd pcs l s t) : t = runSeq upd s l := by
  induction l generalizing s with
  | nil => exact h
  | cons i rest ih => exact ih _ h.2

lemma not_mem_of_nodup_append_singleton {α : Type} {l : List α} {i : α}
    (h : (l ++ [i]).Nodup) : i ∉ l := by
  rw [List.nodup_append] at h
  intro hmem
  exact h.2.2 hmem (List.mem_singleton_self i)

/-- Correlation of the store, the lock and the acquisition history `hist`:
with the lock free, the store is the sequential execution of `hist` and
every member of `hist` has released; with the lock held by `i`,
`hist = l ++ [i]`, the members of `l` have released, and `i` is partway
through its critical section. -/
def LockInv {n : Nat} {V : Type} (upd : Fin n → Option V → UpdRet V) (s0 : Option V)
    (st : USt n V) (hist : List (Fin n)) : Prop :=
  (st.lock = none ∧ SnapChain upd st.pcs hist s0 st.store ∧
    (∀ j ∈ hist, ∃ s, st.pcs j = .released s)) ∨
  (∃ i l, st.lock = some i ∧ hist = l ++ [i] ∧
    (∀ j ∈ l, ∃ s, st.pcs j = .released s) ∧
    ∃ mid, SnapChain upd st.pcs l s0 mid ∧
      ((st.pcs i = .acquired ∧ st.store = mid) ∨
       (st.pcs i = .readDone st.store ∧ st.store = mid) ∨
       (∃ s2, st.pcs i = .written s2 ∧ s2 = mid ∧ st.store = applyUpd (upd i) mid)))

/-- Reachability invariant of the protocol. -/
def UInv {n : Nat} {V : Type} (upd : Fin n → Option V → UpdRet V) (s0 : Option V)
    (st : USt n V) : Prop :=
  ∃ hist : List (Fin n), hist.Nodup ∧ (∀ j, st.pcs j = .ready ↔ j ∉ hist) ∧
    LockInv upd s0 st hist

lemma ready_iff_update_snoc {n : Nat} {V : Type} (pcs : Fin n → UPC V)
    (hist : List (Fin n)) (i : Fin n) (w : UPC V) (hw : w ≠ UPC.ready)
    (hrdy : ∀ j, pcs j = .ready ↔ j ∉ hist) :
    ∀ j, Function.update pcs i w j = .ready ↔ j ∉ hist ++ [i] := by
  intro j
  by_cases hj : j = i
  · subst hj
    rw [Function.update_same]
    simp [hw, List.mem_append]
  · rw [Function.update_noteq hj, hrdy j]
    simp [List.mem_append, hj]

lemma ready_iff_update_mem {n : Nat} {V : Type} (pcs : Fin n → UPC V)
    (hist : List (Fin n)) (i : Fin n) (w : UPC V) (hw : w ≠ UPC.ready) (hi : i ∈ hist)
    (hrdy : ∀ j, pcs j = .ready ↔ j ∉ hist) :
    ∀ j, Function.update pcs i w j = .ready ↔ j ∉ hist := by
  intro j
  by_cases hj : j = i
  · subst hj
    rw [Function.update_same]
    simp [hw, hi]
  · rw [Function.update_noteq hj, hrdy j]

lemma released_update {n : Nat} {V : Type} (pcs : Fin n → UPC V) (l : List (Fin n))
    (i : Fin n) (w : UPC V) (hi : i ∉ l)
    (hrel : ∀ j ∈ l, ∃ s, pcs j = UPC.released s) :
    ∀ j ∈ l, ∃ s, Function.update pcs i w j = UPC.released s := by
  intro j hj
  obtain ⟨s, hs⟩ := hrel j hj
  have hne : j ≠ i := by
    rintro rfl
    exact hi hj
  refine ⟨s, ?_⟩
  rw [Function.update_noteq hne, hs]

lemma uinv_step {n : Nat} {V : Type} (upd : Fin n → Option V → UpdRet V) (s0 : Option V)
    {st1 st2 : USt n V} (h : UStep upd st1 st2) (hinv : UInv upd s0 st1) :
    UInv upd s0 st2 := by
  obtain ⟨hist, hnd, hrdy, hli⟩ := hinv
  cases h with
  | acquire i st hl hp =>
    rcases hli with ⟨-, hchain, hrel⟩ | ⟨i2, l, hlk, -⟩
    · have hi : i ∉ hist := (hrdy i).mp hp
      refine ⟨hist ++ [i], ?_,
        ready_iff_update_snoc st1.pcs hist i UPC.acquired (by simp) hrdy, ?_⟩
      · rw [List.nodup_append]
        exact ⟨hnd, List.nodup_singleton i,
          fun a ha hai => hi ((List.mem_singleton.mp hai) ▸ ha)⟩
      · right
        refine ⟨i, hist, rfl, rfl, released_update st1.pcs hist i _ hi hrel, st1.store,
          (snapChain_update_of_not_mem upd st1.pcs i _ hist hi s0 st1.store).mpr hchain,
          Or.inl ⟨Function.update_same i _ st1.pcs, rfl⟩⟩
    · rw [hl] at hlk
      cases hlk
  | readStep i st hl hp =>
    rcases hli with ⟨hln, -, -⟩ | ⟨i2, l, hlk, hheq, hrel, mid, hchain, hbr⟩
    · rw [hl] at hln
      cases hln
    · rw [hl] at hlk
      have hii := Option.some.inj hlk
      subst hii
      subst hheq
      have hil : i ∉ l := not_mem_of_nodup_append_singleton hnd
      have hmem : i ∈ l ++ [i] := by simp
      rcases hbr with ⟨hpc, hst⟩ | ⟨hpc, -⟩ | ⟨s2, hpc, -, -⟩
      rotate_left
      · rw [hp] at hpc
        simp at hpc
      · rw [hp] at hpc
        simp at hpc
      refine ⟨l ++ [i], hnd,
        ready_iff_update_mem st1.pcs _ i (UPC.readDone st1.store) (by simp) hmem hrdy, ?_⟩
      right
      exact ⟨i, l, hl, rfl, released_update st1.pcs l i _ hil hrel, mid,
        (snapChain_update_of_not_mem upd st1.pcs i _ l hil s0 mid).mpr hchain,
        Or.inr (Or.inl ⟨Function.update_same i _ st1.pcs, hst⟩)⟩
  | writeStep i st snap hl hp =>
    rcases hli with ⟨hln, -, -⟩ | ⟨i2, l, hlk, hheq, hrel, mid, hchain, hbr⟩
    · rw [hl] at hln
      cases hln
    · rw [hl] at hlk
      have hii := Option.some.inj hlk
      subst hii
      subst hheq
      have hil : i ∉ l := not_mem_of_nodup_append_singleton hnd
      have hmem : i ∈ l ++ [i] := by simp
      rcases hbr with ⟨hpc, -⟩ | ⟨hpc, hst⟩ | ⟨s2, hpc, -, -⟩
      · rw [hp] at hpc
        simp at hpc
      rotate_left
      · rw [hp] at hpc
        simp at hpc
      have hsnap : snap = st1.store := by
        rw [hp] at hpc
        exact UPC.readDone.inj hpc
      have hms : mid = snap := by
        rw [hsnap]
        exact hst.symm
      refine ⟨l ++ [i], hnd,
        ready_iff_update_mem st1.pcs _ i (UPC.written snap) (by simp) hmem hrdy, ?_⟩
      right
      refine ⟨i, l, hl, rfl, released_update st1.pcs l i _ hil hrel, mid,
        (snapChain_update_of_not_mem upd st1.pcs i _ l hil s0 mid).mpr hchain,
        Or.inr (Or.inr ⟨snap, Function.update_same i _ st1.pcs, hms.symm, ?_⟩)⟩
      rw [hms]
      unfold applyUpd
      rw [hsnap]
  | releaseStep i st snap hl hp =>
    rcases hli with ⟨hln, -, -⟩ | ⟨i2, l, hlk, hheq, hrel, mid, hchain, hbr⟩
    · rw [hl] at hln
      cases hln
    · rw [hl] at hlk
      have hii := Option.some.inj hlk
      subst hii
      subst hheq
      have hil : i ∉ l := not_mem_of_nodup_append_singleton hnd
      have hmem : i ∈ l ++ [i] := by simp
      rcases hbr with ⟨hpc, -⟩ | ⟨hpc, -⟩ | ⟨s2, hpc, hs2m, hstore⟩
      · rw [hp] at hpc
        simp at hpc
      · rw [hp] at hpc
        simp at hpc
      have hsnap : snap = s2 := by
        rw [hp] at hpc
        exact UPC.written.inj hpc
      refine ⟨l ++ [i], hnd,
        ready_iff_update_mem st1.pcs _ i (UPC.released snap) (by simp) hmem hrdy, ?_⟩
      left
      refine ⟨rfl, ?_, ?_⟩
      · rw [snapChain_snoc]
        refine ⟨mid,
          (snapChain_update_of_not_mem upd st1.pcs i _ l hil s0 mid).mpr hchain, ?_,
          hstore⟩
        intro s3 hs3
        dsimp only at hs3
        rw [Function.update_same] at hs3
        simp only [pcSnap, Option.some.injEq] at hs3
        rw [← hs3, hsnap]
        exact hs2m
      · intro j hj
        rcases List.mem_append.mp hj with hjl | hji
        · exact released_update st1.pcs l i _ hil hrel j hjl
        · have hje : j = i := List.mem_singleton.mp hji
          subst hje
          exact ⟨snap, Function.update_same j _ st1.pcs⟩
lemma uinv_of_run {n : Nat} {V : Type} (upd : Fin n → Option V → UpdRet V)
    (s0 : Option V) {fin : USt n V}
    (h : Relation.ReflTransGen (UStep upd) ⟨s0, none, fun _ => .ready⟩ fin) :
    UInv upd s0 fin := by
  induction h with
  | refl => exact ⟨[], List.nodup_nil, by simp, Or.inl ⟨rfl, rfl, by simp⟩⟩
  | tail h1 h2 ih => exact uinv_step upd s0 h2 ih

/-- **C1**: per-key linearizability of `updateJsonWithLock` (either
backend): in every complete interleaved execution of `n` concurrent
invocations on the same key, each updater runs exactly once, and there is
a total order `hist` of all invocations such that every invocation's
observed snapshot equals the sequential execution of the successful
updates before it in that order, and the final persisted state equals the
sequential execution of all of them — the result of the last update. -/
theorem C1_update_with_lock_serializable {n : Nat} {V : Type}
    (upd : Fin n → Option V → UpdRet V) (s0 : Option V) (fin : USt n V)
    (hrun : Relation.ReflTransGen (UStep upd) ⟨s0, none, fun _ => .ready⟩ fin)
    (hdone : ∀ i, ∃ s, fin.pcs i = .released s) :
    ∃ hist : List (Fin n),
      hist.Perm (List.finRange n) ∧
      SnapChain upd fin.pcs hist s0 fin.store ∧
      fin.store = runSeq upd s0 hist := by
  obtain ⟨hist, hnd, hrdy, hli⟩ := uinv_of_run upd s0 hrun
  rcases hli with ⟨-, hchain, -⟩ | ⟨i, l, -, -, -, mid, -, hbr⟩
  · refine ⟨hist, ?_, hchain, snapChain_runSeq upd fin.pcs hist s0 fin.store hchain⟩
    have hmem : ∀ j : Fin n, j ∈ hist := by
      intro j
      by_contra hj
      obtain ⟨s, hs⟩ := hdone j
      have hr := (hrdy j).mpr hj
      rw [hs] at hr
      simp at hr
    have hfin : hist.toFinset = (List.finRange n).toFinset := by
      ext j
      simp [hmem j, List.mem_finRange]
    exact List.perm_of_nodup_nodup_toFinset_eq hnd (List.nodup_finRange n) hfin
  · obtain ⟨s, hs⟩ := hdone i
    rcases hbr with ⟨hpc, -⟩ | ⟨hpc, -⟩ | ⟨s2, hpc, -, -⟩ <;> rw [hs] at hpc <;>
      simp at hpc

/-- A single invocation writing 7 for the C1 witness. -/
def c1Upd : Fin 1 → Option Nat → UpdRet Nat := fun _ _ => ⟨true, 7⟩

/-- Initial single-invocation state. -/
def c1Init : USt 1 Nat := ⟨none, none, fun _ => .ready⟩

/-- After acquiring the lock. -/
def c1S1 : USt 1 Nat := ⟨none, some 0, Function.update c1Init.pcs 0 .acquired⟩

/-- After reading the (absent) current value. -/
def c1S2 : USt 1 Nat := ⟨none, some 0, Function.update c1S1.pcs 0 (.readDone none)⟩

/-- After the conditional write. -/
def c1S3 : USt 1 Nat := ⟨some 7, some 0, Function.update c1S2.pcs 0 (.written none)⟩

/-- After releasing the lock: the complete execution's final state. -/
def c1Fin : USt 1 Nat := ⟨some 7, none, Function.update c1S3.pcs 0 (.released none)⟩

/-- Witness for `C1_update_with_lock_serializable`: the four-step complete
execution of one invocation. -/
theorem C1_update_with_lock_serializable_witness :
    (Relation.ReflTransGen (UStep c1Upd) ⟨none, none, fun _ => .ready⟩ c1Fin ∧
      ∀ i : Fin 1, ∃ s, c1Fin.pcs i = .released s) ∧
    ∃ hist : List (Fin 1),
      hist.Perm (List.finRange 1) ∧
      SnapChain c1Upd c1Fin.pcs hist none c1Fin.store ∧
      c1Fin.store = runSeq c1Upd none hist := by
  have hstep1 : UStep c1Upd c1Init c1S1 := UStep.acquire 0 c1Init rfl rfl
  have hstep2 : UStep c1Upd c1S1 c1S2 :=
    UStep.readStep 0 c1S1 rfl (Function.update_same 0 _ c1Init.pcs)
  have hstep3 : UStep c1Upd c1S2 c1S3 :=
    UStep.writeStep 0 c1S2 none rfl (Function.update_same 0 _ c1S1.pcs)
  have hstep4 : UStep c1Upd c1S3 c1Fin :=
    UStep.releaseStep 0 c1S3 none rfl (Function.update_same 0 _ c1S2.pcs)
  have hrun : Relation.ReflTransGen (UStep c1Upd) c1Init c1Fin :=
    Relation.ReflTransGen.tail
      (Relation.ReflTransGen.tail
        (Relation.ReflTransGen.tail (Relation.ReflTransGen.single hstep1) hstep2)
        hstep3) hstep4
  have hdone : ∀ i : Fin 1, ∃ s, c1Fin.pcs i = .released s := by
    intro i
    have hi : i = 0 := Fin.eq_zero i
    subst hi
    exact ⟨none, Function.update_same 0 _ c1S3.pcs⟩
  exact ⟨⟨hrun, hdone⟩, C1_update_with_lock_serializable c1Upd none c1Fin hrun hdone⟩

end OpenClaw
